import Mathlib

/-!
Shallow embedding of `fluid_sim.py` (a 2D "stable fluids" solver à la Jos Stam)
and verification of a list of specification claims about it.

Grids are modelled as total functions `ℤ → ℤ → ℚ`; the simulation only ever
reads and writes cells with both indices in `0 .. size-1`, and every claim is
stated on that region.  NumPy in-place mutation becomes explicit state passing:
each Python routine is translated into a function returning the new contents of
the buffers it writes, statement by statement, in source order.
-/

namespace FluidSim

/-- A dense 2D grid of rationals (the embedding of a NumPy `(N, N)` float array).
Cells outside `0 .. N-1` are phantom values never read by the simulation. -/
def Grid : Type := ℤ → ℤ → ℚ

/-- Write value `v` into cell `(a, b)` of a grid (one NumPy element assignment). -/
def upd (f : Grid) (a b : ℤ) (v : ℚ) : Grid :=
  fun i j => if i = a ∧ j = b then v else f i j

/-- The all-zero grid, as produced by `np.full((size, size), 0, dtype=float)`. -/
def zeroG : Grid := fun _ _ => 0

/-- A 2-vector field: the embedding of the `(N, N, 2)` velocity array, split into
its x-component slice `[:, :, 0]` and y-component slice `[:, :, 1]`. -/
structure VF where
  x : Grid
  y : Grid

/-- The all-zero vector field. -/
def zeroVF : VF := ⟨zeroG, zeroG⟩

/-- Interior cells in the order the Python double loop visits them:
`for j in range(1, size-1): for i in range(1, size-1)` (j outer, i inner). -/
def interiorCells (N : ℕ) : List (ℤ × ℤ) :=
  (List.range (N - 2)).flatMap fun (jj : ℕ) =>
    (List.range (N - 2)).map fun (ii : ℕ) => ((ii : ℤ) + 1, (jj : ℤ) + 1)

/-- Cell `(i, j)` is an interior cell of an `N×N` grid: both indices in `1 .. N-2`. -/
def interior (N : ℕ) (i j : ℤ) : Prop :=
  1 ≤ i ∧ i ≤ (N : ℤ) - 2 ∧ 1 ≤ j ∧ j ≤ (N : ℤ) - 2

instance (N : ℕ) (i j : ℤ) : Decidable (interior N i j) := by
  unfold interior; exact inferInstance

/-- Cell `(i, j)` is one of the four corner cells of an `N×N` grid. -/
def isCorner (N : ℕ) (i j : ℤ) : Prop :=
  (i = 0 ∨ i = (N : ℤ) - 1) ∧ (j = 0 ∨ j = (N : ℤ) - 1)

instance (N : ℕ) (i j : ℤ) : Decidable (isCorner N i j) := by
  unfold isCorner; exact inferInstance

/-- The scalar branch of `set_boundaries` (source lines 66-70): the four corner
assignments, executed sequentially, each reading the current table.  Note the
last assignment faithfully reproduces the source's line continuation
`0.5 * table[n-2, n-1] \ + table[n-1, n-2]`, where `0.5` multiplies only the
first neighbor. -/
def setB (N : ℕ) (f : Grid) : Grid :=
  let n : ℤ := (N : ℤ)
  let f1 := upd f 0 0 ((1/2) * (f 1 0 + f 0 1))
  let f2 := upd f1 0 (n-1) ((1/2) * (f1 1 (n-1) + f1 0 (n-2)))
  let f3 := upd f2 (n-1) 0 ((1/2) * (f2 (n-2) 0 + f2 (n-1) 1))
  upd f3 (n-1) (n-1) ((1/2) * f3 (n-2) (n-1) + f3 (n-1) (n-2))

/-- NumPy slice assignment `table[:, r, 1] = -table[:, r, 1]`: negate the given
component on row `j = r`, for all columns `0 ≤ i ≤ N-1`. -/
def negRow (N : ℕ) (r : ℤ) (g : Grid) : Grid :=
  fun i j => if j = r ∧ 0 ≤ i ∧ i ≤ (N : ℤ) - 1 then -(g i j) else g i j

/-- NumPy slice assignment `table[c, :, 0] = -table[c, :, 0]`: negate the given
component on column `i = c`, for all rows `0 ≤ j ≤ N-1`. -/
def negCol (N : ℕ) (c : ℤ) (g : Grid) : Grid :=
  fun i j => if i = c ∧ 0 ≤ j ∧ j ≤ (N : ℤ) - 1 then -(g i j) else g i j

/-- The 2-vector branch of `set_boundaries` (source lines 57-70): negate the
y-component on rows `0` and `N-1`, negate the x-component on columns `0` and
`N-1`, then perform the four corner assignments on both components (a corner
assignment writes the whole 2-vector; the components never cross-read, so the
corner chain acts on each component exactly as the scalar `setB` does). -/
def setBVec (N : ℕ) (v : VF) : VF :=
  ⟨setB N (negCol N ((N : ℤ) - 1) (negCol N 0 v.x)),
   setB N (negRow N ((N : ℤ) - 1) (negRow N 0 v.y))⟩

/-- One Gauss-Seidel relaxation sweep of `lin_solve` (source lines 45-47): fold
over the interior cells in source order, each write reading the
already-updated current grid. -/
def sweep (N : ℕ) (a crecip : ℚ) (x0 : Grid) (x : Grid) : Grid :=
  (interiorCells N).foldl
    (fun acc p =>
      upd acc p.1 p.2
        ((x0 p.1 p.2 +
            a * (acc (p.1 + 1) p.2 + acc (p.1 - 1) p.2 +
                 acc p.1 (p.2 + 1) + acc p.1 (p.2 - 1))) * crecip))
    x

/-- The scalar instance of `lin_solve` (source lines 41-49): `nIter` times, one
relaxation sweep followed by `set_boundaries` on the target, with `1/c`
precomputed. -/
def linSolve (N nIter : ℕ) (a c : ℚ) (x x0 : Grid) : Grid :=
  (fun y => setB N (sweep N a (1/c) x0 y))^[nIter] x

/-- One relaxation sweep of `lin_solve` on a 2-vector field: the NumPy cell
update acts on the whole 2-vector; components never cross-read. -/
def sweepV (N : ℕ) (a crecip : ℚ) (x0 : VF) (x : VF) : VF :=
  (interiorCells N).foldl
    (fun acc p =>
      ⟨upd acc.x p.1 p.2
        ((x0.x p.1 p.2 +
            a * (acc.x (p.1 + 1) p.2 + acc.x (p.1 - 1) p.2 +
                 acc.x p.1 (p.2 + 1) + acc.x p.1 (p.2 - 1))) * crecip),
       upd acc.y p.1 p.2
        ((x0.y p.1 p.2 +
            a * (acc.y (p.1 + 1) p.2 + acc.y (p.1 - 1) p.2 +
                 acc.y p.1 (p.2 + 1) + acc.y p.1 (p.2 - 1))) * crecip)⟩)
    x

/-- The 2-vector instance of `lin_solve`, as invoked by `diffuse(velo0, velo, visc)`
on the 3D velocity arrays: each sweep is followed by the vector branch of
`set_boundaries`. -/
def linSolveV (N nIter : ℕ) (a c : ℚ) (x x0 : VF) : VF :=
  (fun y => setBVec N (sweepV N a (1/c) x0 y))^[nIter] x

/-- The `diffuse` routine (source lines 72-74): compute
`a = dt * d * (N-2) * (N-2)` and call `lin_solve(x, x0, a, 1 + 6a)`. -/
def diffuse (N nIter : ℕ) (dt : ℚ) (x x0 : Grid) (d : ℚ) : Grid :=
  linSolve N nIter (dt * d * ((N : ℤ) - 2) * ((N : ℤ) - 2))
    (1 + 6 * (dt * d * ((N : ℤ) - 2) * ((N : ℤ) - 2))) x x0

/-! Basic lemmas about the boundary enforcer and the relaxation sweep. -/

lemma mem_interiorCells {N : ℕ} {p : ℤ × ℤ} :
    p ∈ interiorCells N ↔ interior N p.1 p.2 := by
  obtain ⟨i, j⟩ := p
  constructor
  · intro h
    obtain ⟨jj, hjj, h2⟩ := List.mem_flatMap.mp h
    obtain ⟨ii, hii, heq⟩ := List.mem_map.mp h2
    rw [List.mem_range] at hjj hii
    have e1 : (ii : ℤ) + 1 = i := congrArg Prod.fst heq
    have e2 : (jj : ℤ) + 1 = j := congrArg Prod.snd heq
    unfold interior
    omega
  · rintro ⟨h1, h2, h3, h4⟩
    refine List.mem_flatMap.mpr ⟨(j - 1).toNat, List.mem_range.mpr (by omega),
      List.mem_map.mpr ⟨(i - 1).toNat, List.mem_range.mpr (by omega), ?_⟩⟩
    have e1 : (((i - 1).toNat : ℕ) : ℤ) + 1 = i := by omega
    have e2 : (((j - 1).toNat : ℕ) : ℤ) + 1 = j := by omega
    exact Prod.ext e1 e2

lemma interior_not_corner {N : ℕ} {i j : ℤ} (h : interior N i j) : ¬ isCorner N i j := by
  unfold interior at h
  unfold isCorner
  omega

lemma setB_noncorner {N : ℕ} {f : Grid} {i j : ℤ} (h : ¬ isCorner N i j) :
    setB N f i j = f i j := by
  unfold isCorner at h
  simp only [setB, upd]
  split_ifs <;> first | rfl | exact absurd (by omega) h

lemma setB_interior {N : ℕ} {f : Grid} {i j : ℤ} (h : interior N i j) :
    setB N f i j = f i j :=
  setB_noncorner (interior_not_corner h)

lemma sweep_zero_aux (x0 : Grid) :
    ∀ (L : List (ℤ × ℤ)) (x : Grid) (i j : ℤ),
      (L.foldl
        (fun acc p =>
          upd acc p.1 p.2
            ((x0 p.1 p.2 +
                0 * (acc (p.1 + 1) p.2 + acc (p.1 - 1) p.2 +
                     acc p.1 (p.2 + 1) + acc p.1 (p.2 - 1))) * 1)) x) i j
        = if (i, j) ∈ L then x0 i j else x i j := by
  intro L
  induction L with
  | nil => simp
  | cons p L ih =>
    intro x i j
    simp only [List.foldl_cons, ih, List.mem_cons]
    by_cases hmem : (i, j) ∈ L
    · simp [hmem]
    · by_cases hp : i = p.1 ∧ j = p.2
      · obtain ⟨a, b⟩ := p
        obtain ⟨rfl, rfl⟩ := hp
        simp [hmem, upd]
      · have hne : (i, j) ≠ p := by
          intro hc
          exact hp ⟨congrArg Prod.fst hc, congrArg Prod.snd hc⟩
        simp [hmem, hne, upd, hp]

lemma sweep_zero {N : ℕ} (x0 x : Grid) (i j : ℤ) :
    sweep N 0 1 x0 x i j = if interior N i j then x0 i j else x i j := by
  rw [sweep, sweep_zero_aux]
  by_cases h : interior N i j
  · simp [h, (mem_interiorCells (p := (i, j))).mpr h]
  · have : (i, j) ∉ interiorCells N := fun hc => h (mem_interiorCells.mp hc)
    simp [h, this]

lemma linSolve_zero_interior {N nIter : ℕ} {x x0 : Grid} {i j : ℤ}
    (hiter : 1 ≤ nIter) (hij : interior N i j) :
    linSolve N nIter 0 1 x x0 i j = x0 i j := by
  obtain ⟨k, rfl⟩ : ∃ k, nIter = k + 1 := ⟨nIter - 1, by omega⟩
  rw [linSolve, Function.iterate_succ_apply', setB_interior hij]
  have h1 : (1 : ℚ) / 1 = 1 := by norm_num
  rw [h1, sweep_zero]
  simp [hij]

lemma setBVec_y_row0 {N : ℕ} {v : VF} {i : ℤ} (h1 : 1 ≤ i) (h2 : i ≤ (N : ℤ) - 2) :
    (setBVec N v).y i 0 = -(v.y i 0) := by
  have hc : ¬ isCorner N i 0 := by unfold isCorner; omega
  show setB N (negRow N ((N : ℤ) - 1) (negRow N 0 v.y)) i 0 = -(v.y i 0)
  rw [setB_noncorner hc]
  unfold negRow
  split_ifs <;> first | rfl | (exfalso; omega)

lemma setBVec_y_rowLast {N : ℕ} {v : VF} {i : ℤ} (h1 : 1 ≤ i) (h2 : i ≤ (N : ℤ) - 2) :
    (setBVec N v).y i ((N : ℤ) - 1) = -(v.y i ((N : ℤ) - 1)) := by
  have hc : ¬ isCorner N i ((N : ℤ) - 1) := by unfold isCorner; omega
  show setB N (negRow N ((N : ℤ) - 1) (negRow N 0 v.y)) i ((N : ℤ) - 1)
      = -(v.y i ((N : ℤ) - 1))
  rw [setB_noncorner hc]
  unfold negRow
  split_ifs <;> first | rfl | (exfalso; omega)

lemma setBVec_x_col0 {N : ℕ} {v : VF} {j : ℤ} (h1 : 1 ≤ j) (h2 : j ≤ (N : ℤ) - 2) :
    (setBVec N v).x 0 j = -(v.x 0 j) := by
  have hc : ¬ isCorner N 0 j := by unfold isCorner; omega
  show setB N (negCol N ((N : ℤ) - 1) (negCol N 0 v.x)) 0 j = -(v.x 0 j)
  rw [setB_noncorner hc]
  unfold negCol
  split_ifs <;> first | rfl | (exfalso; omega)

lemma setBVec_x_colLast {N : ℕ} {v : VF} {j : ℤ} (h1 : 1 ≤ j) (h2 : j ≤ (N : ℤ) - 2) :
    (setBVec N v).x ((N : ℤ) - 1) j = -(v.x ((N : ℤ) - 1) j) := by
  have hc : ¬ isCorner N ((N : ℤ) - 1) j := by unfold isCorner; omega
  show setB N (negCol N ((N : ℤ) - 1) (negCol N 0 v.x)) ((N : ℤ) - 1) j
      = -(v.x ((N : ℤ) - 1) j)
  rw [setB_noncorner hc]
  unfold negCol
  split_ifs <;> first | rfl | (exfalso; omega)

/-! Concrete grids used as counterexample and witness inputs. -/

/-- A 4×4 scalar grid that is zero except for value 2 at cell (3, 2) = (N-1, N-2). -/
def ex1 : Grid := upd zeroG 3 2 2

/-- A 4×4 scalar grid that is zero except for value 5 at interior cell (1, 1). -/
def exD : Grid := upd zeroG 1 1 5

/-- A 4×4 scalar grid that is zero except for value 3 at interior cell (1, 1). -/
def exD0 : Grid := upd zeroG 1 1 3

/-- A 4×4 vector field whose y-component is 1 at the corner cell (0, 0), else zero. -/
def exV : VF := ⟨zeroG, upd zeroG 0 0 1⟩

/-- A 5×5 scalar grid that is zero except for value 42 at border cell (2, 0). -/
def exE : Grid := upd zeroG 2 0 42

/-- C1: the claim states that after `set_boundaries` every corner equals 0.5 times
the sum of its two edge-adjacent neighbors.  Evaluating the code at a concrete
4×4 scalar grid that is zero except for value 2 at (N-1, N-2) = (3, 2): the code
sets corner (3, 3) to `0.5 * f(2, 3) + f(3, 2) = 2` (the source's backslash line
continuation drops the parenthesis, so 0.5 multiplies only the first neighbor),
while the claimed value is `0.5 * (f(2, 3) + f(3, 2)) = 1`.  The three other
corners do follow the claimed formula; the fourth does not. -/
theorem C1_corner_formula :
    setB 4 ex1 3 3 = 2 ∧
    setB 4 ex1 3 3 ≠ (1/2) * (setB 4 ex1 2 3 + setB 4 ex1 3 2) := by
  norm_num [setB, upd, ex1, zeroG]

/-- C5 counterexample: the Diffusion Step with rate 0 does NOT leave the target
field unchanged at interior cells: with target `exD` (value 5 at (1, 1)) and
source `exD0` (value 3 at (1, 1)) as distinct buffers, `diffuse` with `diff = 0`
overwrites the target interior with the source value 3 ≠ 5. -/
theorem C5_counterexample :
    diffuse 4 2 (1/5) exD exD0 0 1 1 = 3 ∧ exD 1 1 = 5 ∧ (3 : ℚ) ≠ 5 := by
  refine ⟨?_, by norm_num [exD, upd, zeroG], by norm_num⟩
  norm_num [diffuse, linSolve, sweep, interiorCells, setB, upd, exD, exD0, zeroG,
    List.range_succ, Function.iterate_succ, Function.iterate_zero]

lemma diffuse_zero_interior {N nIter : ℕ} {dt : ℚ} {x x0 : Grid} {i j : ℤ}
    (hiter : 1 ≤ nIter) (hij : interior N i j) :
    diffuse N nIter dt x x0 0 i j = x0 i j := by
  rw [diffuse]
  rw [show (dt * 0 * (((N : ℤ) : ℚ) - 2) * (((N : ℤ) : ℚ) - 2)) = 0 from by ring]
  rw [show (1 : ℚ) + 6 * 0 = 1 from by norm_num]
  exact linSolve_zero_interior hiter hij

/-- C5 amended: with diffusion rate 0 the Diffusion Step degenerates to
`a = 0, c = 1` and each relaxation sweep writes `x[i,j] = x0[i,j]`: the target
field becomes a pure identity copy of the source at every interior cell (so it
is numerically unchanged there only when the two buffers already agree); only
boundary cells are otherwise recomputed. -/
theorem C5_amended {N nIter : ℕ} {dt : ℚ} {x x0 : Grid} {i j : ℤ}
    (hiter : 1 ≤ nIter) (hij : interior N i j) :
    diffuse N nIter dt x x0 0 i j = x0 i j :=
  diffuse_zero_interior hiter hij

/-- C5 witness: the amended theorem applied at the concrete 4×4 input of the
counterexample, interior cell (1, 1), two solver sweeps. -/
theorem C5_amended_witness : diffuse 4 2 (1/5) exD exD0 0 1 1 = exD0 1 1 :=
  C5_amended (by norm_num) (by unfold interior; norm_num)

/-- C6 counterexample: the boundary-symmetry claim including the corner columns
fails: for the 4×4 vector field `exV` with y-component 1 at (0, 0), after
`set_boundaries` the y-component at (i, j) = (0, 0) is 0 (the corner assignment,
which runs after the negation, overwrites it with the average of its negated
neighbors), not `-1 = -original`. -/
theorem C6_counterexample :
    (setBVec 4 exV).y 0 0 = 0 ∧ exV.y 0 0 = 1 ∧ (setBVec 4 exV).y 0 0 ≠ -(exV.y 0 0) := by
  norm_num [setBVec, setB, negRow, negCol, upd, exV, zeroG]

/-- C6 amended: after `set_boundaries` on a 2-vector field, the y-component on
rows 0 and N-1 is the negation of its prior value for all NON-CORNER columns
`1 ≤ i ≤ N-2` (not for i = 0 or i = N-1, where the subsequent corner assignment
overwrites the cell), and symmetrically for the x-component on columns 0 and
N-1. -/
theorem C6_amended {N : ℕ} {v : VF} {i : ℤ} (h1 : 1 ≤ i) (h2 : i ≤ (N : ℤ) - 2) :
    (setBVec N v).y i 0 = -(v.y i 0) ∧
    (setBVec N v).y i ((N : ℤ) - 1) = -(v.y i ((N : ℤ) - 1)) ∧
    (setBVec N v).x 0 i = -(v.x 0 i) ∧
    (setBVec N v).x ((N : ℤ) - 1) i = -(v.x ((N : ℤ) - 1) i) :=
  ⟨setBVec_y_row0 h1 h2, setBVec_y_rowLast h1 h2,
   setBVec_x_col0 h1 h2, setBVec_x_colLast h1 h2⟩

/-- C6 witness: the amended theorem applied to the concrete 4×4 vector field
`exV` at the non-corner border column i = 2. -/
theorem C6_amended_witness :
    (setBVec 4 exV).y 2 0 = -(exV.y 2 0) ∧
    (setBVec 4 exV).y 2 ((4 : ℤ) - 1) = -(exV.y 2 ((4 : ℤ) - 1)) ∧
    (setBVec 4 exV).x 0 2 = -(exV.x 0 2) ∧
    (setBVec 4 exV).x ((4 : ℤ) - 1) 2 = -(exV.x ((4 : ℤ) - 1) 2) :=
  C6_amended (by norm_num) (by norm_num)

/-- C4 counterexample: `set_boundaries` does not overwrite non-corner border
cells of a scalar field, and the resulting border value is not a function of
interior neighbors: the two concrete 5×5 inputs `exE` and `upd exE 2 0 7` agree
at every cell except the border cell (2, 0) itself (42 versus 7), yet after
`set_boundaries` the values at (2, 0) still differ (42 versus 7) — the cell
keeps its own previous value. -/
theorem C4_counterexample :
    setB 5 exE 2 0 = 42 ∧ setB 5 (upd exE 2 0 7) 2 0 = 7 := by
  constructor <;> norm_num [setB, upd, exE, zeroG]

/-- C4 amended: `set_boundaries` overwrites only the four corner cells of a
scalar field — every non-corner cell, border or interior, keeps its previous
value untouched; for a 2-vector field it additionally negates in place the
y-component on rows 0 and N-1 and the x-component on columns 0 and N-1 at every
non-corner border index — a function of the border cell's own previous value,
not of interior neighbors. -/
theorem C4_amended {N : ℕ} (f : Grid) (v : VF) :
    (∀ i j : ℤ, ¬ isCorner N i j → setB N f i j = f i j) ∧
    (∀ i : ℤ, 1 ≤ i → i ≤ (N : ℤ) - 2 →
      (setBVec N v).y i 0 = -(v.y i 0) ∧
      (setBVec N v).y i ((N : ℤ) - 1) = -(v.y i ((N : ℤ) - 1)) ∧
      (setBVec N v).x 0 i = -(v.x 0 i) ∧
      (setBVec N v).x ((N : ℤ) - 1) i = -(v.x ((N : ℤ) - 1) i)) :=
  ⟨fun _ _ hnc => setB_noncorner hnc,
   fun _ h1 h2 => ⟨setBVec_y_row0 h1 h2, setBVec_y_rowLast h1 h2,
     setBVec_x_col0 h1 h2, setBVec_x_colLast h1 h2⟩⟩

/-- C4 witness: the amended theorem applied to the concrete grid `exE` at the
non-corner border cell (2, 0) of a 5×5 grid and to the vector field `exV` at
the non-corner border index 2. -/
theorem C4_amended_witness :
    setB 5 exE 2 0 = exE 2 0 ∧
    (setBVec 5 exV).y 2 0 = -(exV.y 2 0) ∧
    (setBVec 5 exV).y 2 (((5 : ℕ) : ℤ) - 1) = -(exV.y 2 (((5 : ℕ) : ℤ) - 1)) ∧
    (setBVec 5 exV).x 0 2 = -(exV.x 0 2) ∧
    (setBVec 5 exV).x (((5 : ℕ) : ℤ) - 1) 2 = -(exV.x (((5 : ℕ) : ℤ) - 1) 2) :=
  ⟨(C4_amended exE exV).1 2 0 (by unfold isCorner; norm_num),
   ((C4_amended exE exV).2 2 (by norm_num) (by norm_num)).1,
   ((C4_amended exE exV).2 2 (by norm_num) (by norm_num)).2.1,
   ((C4_amended exE exV).2 2 (by norm_num) (by norm_num)).2.2.1,
   ((C4_amended exE exV).2 2 (by norm_num) (by norm_num)).2.2.2⟩

/-! The advection step. -/

/-- The coordinate clamp of `advect` (source lines 110-111 and 115-116): raise
to 0.5 if below, then lower to `size + 0.5` if above. -/
def clampQ (N : ℕ) (q : ℚ) : ℚ :=
  if (if q < 1/2 then 1/2 else q) > (N : ℚ) + 1/2 then (N : ℚ) + 1/2
  else (if q < 1/2 then 1/2 else q)

/-- Back-traced, clamped x coordinate of interior cell `(i, j)` (source lines
99, 105, 107, 110-111): `x = i - dt * (size - 2) * velo_x[i, j]`, clamped. -/
def advectX (N : ℕ) (dt : ℚ) (vx : Grid) (i j : ℤ) : ℚ :=
  clampQ N ((i : ℚ) - dt * ((N : ℚ) - 2) * vx i j)

/-- Back-traced, clamped y coordinate of interior cell `(i, j)` (source lines
100, 106, 108, 115-116). -/
def advectY (N : ℕ) (dt : ℚ) (vy : Grid) (i j : ℤ) : ℚ :=
  clampQ N ((j : ℚ) - dt * ((N : ℚ) - 2) * vy i j)

/-- The bilinear blend of `advect` (source lines 120-131) with
`s0 = 1 - s1` and `t0 = 1 - t1` inlined:
`s0 * (t0 * A + t1 * B) + s1 * (t0 * C + t1 * D)`. -/
def bilerp (s1 t1 A B C D : ℚ) : ℚ :=
  (1 - s1) * ((1 - t1) * A + t1 * B) + s1 * ((1 - t1) * C + t1 * D)

/-- The value `advect` writes at interior cell `(i, j)` (source lines 105-131):
`i0 = floor x`, `i1 = i0 + 1`, `s1 = x - i0`, and the bilinear blend of the
four reads `d0[i0, j0]`, `d0[i0, j1]`, `d0[i1, j0]`, `d0[i1, j1]`. -/
def advectCell (N : ℕ) (dt : ℚ) (d0 vx vy : Grid) (i j : ℤ) : ℚ :=
  let x := advectX N dt vx i j
  let y := advectY N dt vy i j
  let i0 : ℤ := ⌊x⌋
  let j0 : ℤ := ⌊y⌋
  bilerp (x - (i0 : ℚ)) (y - (j0 : ℚ))
    (d0 i0 j0) (d0 i0 (j0 + 1)) (d0 (i0 + 1) j0) (d0 (i0 + 1) (j0 + 1))

/-- The `advect` routine (source lines 98-133): write the back-traced bilinear
value at every interior cell of `d` (the loop reads only `d0`, `velo_x`,
`velo_y`, none of which aliases `d` at any call site), then apply
`set_boundaries` to `d`; `d` is a 2D slice at every call site, so the scalar
(corners-only) branch runs. -/
def advect (N : ℕ) (dt : ℚ) (d d0 vx vy : Grid) : Grid :=
  setB N (fun i j => if interior N i j then advectCell N dt d0 vx vy i j else d i j)

lemma advect_interior {N : ℕ} {dt : ℚ} {d d0 vx vy : Grid} {i j : ℤ}
    (h : interior N i j) :
    advect N dt d d0 vx vy i j = advectCell N dt d0 vx vy i j := by
  unfold advect
  rw [setB_interior h]
  simp [h]

lemma bilerp_between {s1 t1 A B C D : ℚ}
    (hs0 : 0 ≤ s1) (hs1 : s1 ≤ 1) (ht0 : 0 ≤ t1) (ht1 : t1 ≤ 1) :
    min (min A B) (min C D) ≤ bilerp s1 t1 A B C D ∧
    bilerp s1 t1 A B C D ≤ max (max A B) (max C D) := by
  have hAm : min (min A B) (min C D) ≤ A := le_trans (min_le_left _ _) (min_le_left _ _)
  have hBm : min (min A B) (min C D) ≤ B := le_trans (min_le_left _ _) (min_le_right _ _)
  have hCm : min (min A B) (min C D) ≤ C := le_trans (min_le_right _ _) (min_le_left _ _)
  have hDm : min (min A B) (min C D) ≤ D := le_trans (min_le_right _ _) (min_le_right _ _)
  have hAM : A ≤ max (max A B) (max C D) := le_trans (le_max_left _ _) (le_max_left _ _)
  have hBM : B ≤ max (max A B) (max C D) := le_trans (le_max_right _ _) (le_max_left _ _)
  have hCM : C ≤ max (max A B) (max C D) := le_trans (le_max_left _ _) (le_max_right _ _)
  have hDM : D ≤ max (max A B) (max C D) := le_trans (le_max_right _ _) (le_max_right _ _)
  unfold bilerp
  constructor <;> nlinarith [mul_nonneg hs0 ht0, mul_nonneg hs0 (sub_nonneg.2 ht1),
    mul_nonneg (sub_nonneg.2 hs1) ht0, mul_nonneg (sub_nonneg.2 hs1) (sub_nonneg.2 ht1)]

/-- C9: the bilinear interpolation of `advect` never overshoots its four source
reads: at every cell the written value lies between the minimum and the maximum
of `d0[i0, j0]`, `d0[i0, j1]`, `d0[i1, j0]`, `d0[i1, j1]`, because the
fractional weights are a convex combination. -/
theorem C9_interpolation_bounded (N : ℕ) (dt : ℚ) (d d0 vx vy : Grid) (i j : ℤ)
    (h : interior N i j) :
    min (min (d0 ⌊advectX N dt vx i j⌋ ⌊advectY N dt vy i j⌋)
             (d0 ⌊advectX N dt vx i j⌋ (⌊advectY N dt vy i j⌋ + 1)))
        (min (d0 (⌊advectX N dt vx i j⌋ + 1) ⌊advectY N dt vy i j⌋)
             (d0 (⌊advectX N dt vx i j⌋ + 1) (⌊advectY N dt vy i j⌋ + 1)))
      ≤ advect N dt d d0 vx vy i j ∧
    advect N dt d d0 vx vy i j ≤
      max (max (d0 ⌊advectX N dt vx i j⌋ ⌊advectY N dt vy i j⌋)
               (d0 ⌊advectX N dt vx i j⌋ (⌊advectY N dt vy i j⌋ + 1)))
          (max (d0 (⌊advectX N dt vx i j⌋ + 1) ⌊advectY N dt vy i j⌋)
               (d0 (⌊advectX N dt vx i j⌋ + 1) (⌊advectY N dt vy i j⌋ + 1))) := by
  rw [advect_interior h]
  simp only [advectCell]
  have hx := Int.fract_nonneg (advectX N dt vx i j)
  have hx1 := le_of_lt (Int.fract_lt_one (advectX N dt vx i j))
  have hy := Int.fract_nonneg (advectY N dt vy i j)
  have hy1 := le_of_lt (Int.fract_lt_one (advectY N dt vy i j))
  rw [← Int.self_sub_floor] at hx hx1
  rw [← Int.self_sub_floor] at hy hy1
  exact bilerp_between hx hx1 hy hy1

/-- C9 witness: the theorem applied at the concrete interior cell (1, 1) of a
4×4 grid with all-zero fields. -/
theorem C9_interpolation_bounded_witness :
    min (min (zeroG ⌊advectX 4 (1/5) zeroG 1 1⌋ ⌊advectY 4 (1/5) zeroG 1 1⌋)
             (zeroG ⌊advectX 4 (1/5) zeroG 1 1⌋ (⌊advectY 4 (1/5) zeroG 1 1⌋ + 1)))
        (min (zeroG (⌊advectX 4 (1/5) zeroG 1 1⌋ + 1) ⌊advectY 4 (1/5) zeroG 1 1⌋)
             (zeroG (⌊advectX 4 (1/5) zeroG 1 1⌋ + 1) (⌊advectY 4 (1/5) zeroG 1 1⌋ + 1)))
      ≤ advect 4 (1/5) zeroG zeroG zeroG zeroG 1 1 ∧
    advect 4 (1/5) zeroG zeroG zeroG zeroG 1 1 ≤
      max (max (zeroG ⌊advectX 4 (1/5) zeroG 1 1⌋ ⌊advectY 4 (1/5) zeroG 1 1⌋)
               (zeroG ⌊advectX 4 (1/5) zeroG 1 1⌋ (⌊advectY 4 (1/5) zeroG 1 1⌋ + 1)))
          (max (zeroG (⌊advectX 4 (1/5) zeroG 1 1⌋ + 1) ⌊advectY 4 (1/5) zeroG 1 1⌋)
               (zeroG (⌊advectX 4 (1/5) zeroG 1 1⌋ + 1) (⌊advectY 4 (1/5) zeroG 1 1⌋ + 1))) :=
  C9_interpolation_bounded 4 (1/5) zeroG zeroG zeroG zeroG 1 1
    (by unfold interior; norm_num)

/-- A 40×40 velocity x-component written directly by the external driver:
value -10 at interior cell (1, 1), zero elsewhere. -/
def exVX : Grid := upd zeroG 1 1 (-10)

/-- C2: the clamp does NOT keep the interpolation reads inside the buffer.  At
the default configuration (N = 40, dt = 1/5) with driver-written velocity
`velo_x[1, 1] = -10`, the back-trace gives `x = 1 + 7.6·10 = 77`, clamped to
`size + 0.5 = 40.5` — inside the claimed interval `[0.5, N + 0.5]` — yet
`i0 = floor(40.5) = 40` (and `i1 = 41`) is not a valid index of the 40×40
buffer (valid indices are `0 .. 39`); the read `d0[40, j]` is out of bounds
(an IndexError in NumPy).  Stam's reference solver allocates `(N+2)²` arrays,
for which this clamp is safe; this port keeps the clamp but shrinks the array. -/
theorem C2_out_of_bounds :
    advectX 40 (1/5) exVX 1 1 = 81/2 ∧
    ⌊advectX 40 (1/5) exVX 1 1⌋ = 40 ∧
    ¬ (⌊advectX 40 (1/5) exVX 1 1⌋ ≤ 40 - 1) := by
  have h : advectX 40 (1/5) exVX 1 1 = 81/2 := by
    norm_num [advectX, clampQ, exVX, upd, zeroG]
  have hf : ⌊advectX 40 (1/5) exVX 1 1⌋ = 40 := by
    rw [h, Int.floor_eq_iff]
    norm_num
  exact ⟨h, hf, by rw [hf]; norm_num⟩

/-! The simulation object, the projection step, and the step orchestrator. -/

/-- The simulation object (source lines 10-25): configuration attributes
(`size`, `dt`, `iter` — here `nIter` —, `diff`, `visc`) and the four grids.
Mirrors `Fluid.__init__`, which takes no parameters. -/
structure Fluid where
  size : ℕ
  dt : ℚ
  nIter : ℕ
  diff : ℚ
  visc : ℚ
  s : Grid
  density : Grid
  velo : VF
  velo0 : VF

/-- The construction `Fluid()` (source lines 12-25): hardcoded configuration
`size = 40`, `dt = 0.2`, `iter = 2`, `diff = 0`, `visc = 0`, all grids zero.
There is no parameter, no validation, and no failure outcome. -/
def Fluid.init : Fluid :=
  { size := 40, dt := 1/5, nIter := 2, diff := 0, visc := 0,
    s := zeroG, density := zeroG, velo := zeroVF, velo0 := zeroVF }

/-- The divergence computation of `project` (source lines 77-84): write
`div[i,j] = -0.5 * (vx[i+1,j] - vx[i-1,j] + vy[i,j+1] - vy[i,j-1]) / size` at
every interior cell; the loop reads only `velo_x`/`velo_y`, which never alias
`div` at any call site, so the per-cell writes equal this pointwise form. -/
def computeDiv (N : ℕ) (vx vy div : Grid) : Grid :=
  fun i j =>
    if interior N i j then
      -(1/2) * (vx (i+1) j - vx (i-1) j + vy i (j+1) - vy i (j-1)) / (N : ℚ)
    else div i j

/-- The potential reset of `project` (source line 85): `p[i, j] = 0` at every
interior cell. -/
def zeroInterior (N : ℕ) (p : Grid) : Grid :=
  fun i j => if interior N i j then 0 else p i j

/-- The gradient subtraction of `project` (source line 93), x-component:
`velo_x[i,j] -= 0.5 * (p[i+1,j] - p[i-1,j]) * size`; reads only `p`, which
never aliases `velo_x`. -/
def gradSubX (N : ℕ) (p vx : Grid) : Grid :=
  fun i j =>
    if interior N i j then vx i j - (1/2) * (p (i+1) j - p (i-1) j) * (N : ℚ)
    else vx i j

/-- The gradient subtraction of `project` (source line 94), y-component. -/
def gradSubY (N : ℕ) (p vy : Grid) : Grid :=
  fun i j =>
    if interior N i j then vy i j - (1/2) * (p i (j+1) - p i (j-1)) * (N : ℚ)
    else vy i j

/-- The first `project` call of `step` (source line 31):
`project(velo0[:,:,0], velo0[:,:,1], p = velo[:,:,0], div = velo[:,:,1])`.
`p` and `div` are 2D slices, so `set_boundaries(div)`, `set_boundaries(p)` and
the `lin_solve` inside run the scalar (corners-only) branch; the final
`set_boundaries(self.velo)` (source line 96) applies the 2-vector branch to
`self.velo`, whose components at that point hold `p` and `div` — NOT to the
projected field `velo0`. -/
def Fluid.projectA (st : Fluid) : Fluid :=
  let N := st.size
  let div2 := setB N (computeDiv N st.velo0.x st.velo0.y st.velo.y)
  let p2 := setB N (zeroInterior N st.velo.x)
  let p3 := linSolve N st.nIter 1 6 p2 div2
  { st with velo0 := ⟨gradSubX N p3 st.velo0.x, gradSubY N p3 st.velo0.y⟩,
            velo := setBVec N ⟨p3, div2⟩ }

/-- Modelled from the spec (§4.4 step 6) for comparison only: identical to
`Fluid.projectA` except that the final Boundary Enforcer is applied to the
2-vector field formed by the projected components (here `velo0`), as the
specification's step 6 prescribes, instead of to `self.velo`. -/
def Fluid.projectASpec (st : Fluid) : Fluid :=
  let N := st.size
  let div2 := setB N (computeDiv N st.velo0.x st.velo0.y st.velo.y)
  let p2 := setB N (zeroInterior N st.velo.x)
  let p3 := linSolve N st.nIter 1 6 p2 div2
  { st with velo0 := setBVec N ⟨gradSubX N p3 st.velo0.x, gradSubY N p3 st.velo0.y⟩,
            velo := ⟨p3, div2⟩ }

/-- The second `project` call of `step` (source line 36):
`project(velo[:,:,0], velo[:,:,1], p = velo0[:,:,0], div = velo0[:,:,1])`.
Here the final `set_boundaries(self.velo)` happens to target the projected
components. -/
def Fluid.projectB (st : Fluid) : Fluid :=
  let N := st.size
  let div2 := setB N (computeDiv N st.velo.x st.velo.y st.velo0.y)
  let p2 := setB N (zeroInterior N st.velo0.x)
  let p3 := linSolve N st.nIter 1 6 p2 div2
  { st with velo0 := ⟨p3, div2⟩,
            velo := setBVec N ⟨gradSubX N p3 st.velo.x, gradSubY N p3 st.velo.y⟩ }

/-- The vector instance of `diffuse` (source lines 72-74), as called on the 3D
velocity arrays at source line 28. -/
def diffuseV (N nIter : ℕ) (dt : ℚ) (x x0 : VF) (d : ℚ) : VF :=
  linSolveV N nIter (dt * d * ((N : ℤ) - 2) * ((N : ℤ) - 2))
    (1 + 6 * (dt * d * ((N : ℤ) - 2) * ((N : ℤ) - 2))) x x0

/-- The `step` orchestrator (source lines 27-39): diffuse velocity into
`velo0`, project it (scratch `velo`), advect both velocity components from
`velo0`, project `velo` (scratch `velo0`), diffuse density into `s`, advect
density from `s` along the final velocity. -/
def Fluid.step (st : Fluid) : Fluid :=
  let st1 : Fluid := { st with velo0 := diffuseV st.size st.nIter st.dt st.velo0 st.velo st.visc }
  let st2 := st1.projectA
  let vx2 := advect st.size st.dt st2.velo.x st2.velo0.x st2.velo0.x st2.velo0.y
  let vy2 := advect st.size st.dt st2.velo.y st2.velo0.y st2.velo0.x st2.velo0.y
  let st3 : Fluid := { st2 with velo := ⟨vx2, vy2⟩ }
  let st4 := st3.projectB
  let s1 := diffuse st.size st.nIter st.dt st4.s st4.density st.diff
  let d1 := advect st.size st.dt st4.density s1 st4.velo.x st4.velo.y
  { st4 with s := s1, density := d1 }

/-- A concrete 4×4 simulation state whose previous-velocity y-component is 7 at
the non-corner border cell (2, 0) and zero elsewhere. -/
def st3ex : Fluid :=
  { size := 4, dt := 1/5, nIter := 2, diff := 0, visc := 0,
    s := zeroG, density := zeroG, velo := zeroVF,
    velo0 := ⟨zeroG, upd zeroG 2 0 7⟩ }

/-- C3: the Projection Step does NOT end by applying the Boundary Enforcer to
the velocity field formed by the components it projected.  On the first
`project` call of `step` (projecting `velo0` with `velo` as the `p`/`div`
scratch), the code's final `set_boundaries(self.velo)` targets the scratch
pair, leaving `velo0`'s boundary untouched: at the concrete state `st3ex`, the
projected field's y-component at border cell (2, 0) stays 7, whereas applying
the enforcer to the projected components (the spec-modelled
`Fluid.projectASpec`) negates it to -7. -/
theorem C3_boundary_target :
    (Fluid.projectA st3ex).velo0.y 2 0 = 7 ∧
    (Fluid.projectASpec st3ex).velo0.y 2 0 = -7 ∧
    (Fluid.projectA st3ex).velo0.y 2 0 ≠ (Fluid.projectASpec st3ex).velo0.y 2 0 := by
  have h1 : (Fluid.projectA st3ex).velo0.y 2 0 = 7 := by
    simp only [Fluid.projectA]
    norm_num [gradSubY, interior, st3ex, upd, zeroG]
  have h2 : (Fluid.projectASpec st3ex).velo0.y 2 0 = -7 := by
    simp only [Fluid.projectASpec]
    rw [setBVec_y_row0 (by norm_num) (by norm_num [st3ex])]
    norm_num [gradSubY, interior, st3ex, upd, zeroG]
  exact ⟨h1, h2, by rw [h1, h2]; norm_num⟩

/-- C7 counterexample: construction takes no configuration values and never
rejects.  `Fluid.__init__` accepts no parameters, performs no validation, and
always produces the fixed configuration below; no `InvalidConfiguration` error
(or any other rejection path) exists anywhere in the program, so a construction
with relation-violating configuration values can neither occur nor be
rejected. -/
theorem C7_counterexample :
    Fluid.init.size = 40 ∧ Fluid.init.dt = 1/5 ∧ Fluid.init.nIter = 2 ∧
    Fluid.init.diff = 0 ∧ Fluid.init.visc = 0 :=
  ⟨rfl, rfl, rfl, rfl, rfl⟩

/-- C7 amended: the parameterless constructor always succeeds, and its (only
constructible) configuration satisfies the stability relation
`a = dt * diff * (size - 2)^2 = 0 ≥ 0`; no stability checking exists at
construction time or during `step()`. -/
theorem C7_stability_relation :
    Fluid.init.dt * Fluid.init.diff * ((Fluid.init.size : ℚ) - 2) *
      ((Fluid.init.size : ℚ) - 2) = 0 ∧
    0 ≤ Fluid.init.dt * Fluid.init.diff * ((Fluid.init.size : ℚ) - 2) *
      ((Fluid.init.size : ℚ) - 2) := by
  norm_num [Fluid.init]

/-! The write footprint of `lin_solve` (claim C10): a two-buffer heap makes the
target of every single assignment explicit. -/

/-- A two-buffer heap: slot `true` holds the target `x`, slot `false` holds the
source `x0` — two distinct (non-aliasing) NumPy arrays at every call site. -/
def Heap : Type := Bool → Grid

/-- One element write into buffer `b` of the heap. -/
def hw (h : Heap) (b : Bool) (i j : ℤ) (v : ℚ) : Heap :=
  fun b2 => if b2 = b then upd (h b2) i j v else h b2

/-- One relaxation sweep of `lin_solve` on the heap: the only write of the
double loop (source line 47) is `x[i, j] = ...`, targeting buffer `true`;
buffer `false` (`x0`) is only read. -/
def sweepH (N : ℕ) (a crecip : ℚ) (h : Heap) : Heap :=
  (interiorCells N).foldl
    (fun acc p =>
      hw acc true p.1 p.2
        ((acc false p.1 p.2 +
            a * (acc true (p.1 + 1) p.2 + acc true (p.1 - 1) p.2 +
                 acc true p.1 (p.2 + 1) + acc true p.1 (p.2 - 1))) * crecip))
    h

/-- The boundary pass `set_boundaries(x)` of `lin_solve` (source line 49) on the
heap: all four corner writes target buffer `true`. -/
def setBH (N : ℕ) (h : Heap) : Heap :=
  let n : ℤ := (N : ℤ)
  let h1 := hw h true 0 0 ((1/2) * (h true 1 0 + h true 0 1))
  let h2 := hw h1 true 0 (n-1) ((1/2) * (h1 true 1 (n-1) + h1 true 0 (n-2)))
  let h3 := hw h2 true (n-1) 0 ((1/2) * (h2 true (n-2) 0 + h2 true (n-1) 1))
  hw h3 true (n-1) (n-1) ((1/2) * h3 true (n-2) (n-1) + h3 true (n-1) (n-2))

/-- `lin_solve` (source lines 41-49) on the heap. -/
def linSolveH (N nIter : ℕ) (a c : ℚ) (h : Heap) : Heap :=
  (fun g => setBH N (sweepH N a (1/c) g))^[nIter] h

lemma hw_false (h : Heap) (i j : ℤ) (v : ℚ) : hw h true i j v false = h false := by
  simp [hw]

lemma sweepH_false (N : ℕ) (a crecip : ℚ) (h : Heap) :
    sweepH N a crecip h false = h false := by
  unfold sweepH
  generalize interiorCells N = L
  induction L generalizing h with
  | nil => rfl
  | cons p L ih => rw [List.foldl_cons]; exact (ih _).trans (hw_false ..)

lemma setBH_false (N : ℕ) (h : Heap) : setBH N h false = h false := by
  simp [setBH, hw]

/-- Coherence of the heap view with the grid view: the target buffer evolves
exactly as `sweep` computes. -/
lemma sweepH_true (N : ℕ) (a crecip : ℚ) (h : Heap) :
    sweepH N a crecip h true = sweep N a crecip (h false) (h true) := by
  unfold sweepH sweep
  generalize hx0 : h false = x0
  generalize interiorCells N = L
  induction L generalizing h with
  | nil => rfl
  | cons p L ih =>
    rw [List.foldl_cons, List.foldl_cons]
    have hf : hw h true p.1 p.2
        ((h false p.1 p.2 +
            a * (h true (p.1 + 1) p.2 + h true (p.1 - 1) p.2 +
                 h true p.1 (p.2 + 1) + h true p.1 (p.2 - 1))) * crecip) false = x0 := by
      rw [hw_false, hx0]
    have := ih _ hf
    rw [this]
    have ht : hw h true p.1 p.2
        ((h false p.1 p.2 +
            a * (h true (p.1 + 1) p.2 + h true (p.1 - 1) p.2 +
                 h true p.1 (p.2 + 1) + h true p.1 (p.2 - 1))) * crecip) true
        = upd (h true) p.1 p.2
        ((x0 p.1 p.2 +
            a * (h true (p.1 + 1) p.2 + h true (p.1 - 1) p.2 +
                 h true p.1 (p.2 + 1) + h true p.1 (p.2 - 1))) * crecip) := by
      rw [← hx0]; simp [hw]
    rw [ht]

lemma setBH_true (N : ℕ) (h : Heap) : setBH N h true = setB N (h true) := by
  simp [setBH, setB, hw]

lemma linSolveH_true (N nIter : ℕ) (a c : ℚ) (h : Heap) :
    linSolveH N nIter a c h true = linSolve N nIter a c (h true) (h false) := by
  unfold linSolveH linSolve
  induction nIter generalizing h with
  | zero => rfl
  | succ k ih =>
    rw [Function.iterate_succ_apply, Function.iterate_succ_apply, ih]
    rw [setBH_true, sweepH_true, setBH_false, sweepH_false]

/-- C10: `lin_solve` never writes its source buffer: on the two-buffer heap,
every assignment of the relaxation sweeps and of the boundary passes targets
the `x` buffer, so the `x0` buffer is returned untouched (and the heap view
agrees with the grid-level `linSolve` on the `x` buffer, `linSolveH_true`).
Hence the Diffusion Step never alters its previous-state argument. -/
theorem C10_lin_solve_frame (N nIter : ℕ) (a c : ℚ) (h : Heap) :
    linSolveH N nIter a c h false = h false := by
  unfold linSolveH
  induction nIter generalizing h with
  | zero => rfl
  | succ k ih =>
    rw [Function.iterate_succ_apply, ih, setBH_false, sweepH_false]

/-! All-zero fields are fixed points of every routine in the pipeline; this is
the backbone of the mass-conservation analysis (claim C8). -/

lemma zeroVF_x : zeroVF.x = zeroG := rfl

lemma zeroVF_y : zeroVF.y = zeroG := rfl

lemma zeroVF_pair : (⟨zeroG, zeroG⟩ : VF) = zeroVF := rfl

lemma setB_zeroG (N : ℕ) : setB N zeroG = zeroG := by
  funext i j
  simp [setB, upd, zeroG]

lemma negRow_zeroG (N : ℕ) (r : ℤ) : negRow N r zeroG = zeroG := by
  funext i j
  simp [negRow, zeroG]

lemma negCol_zeroG (N : ℕ) (c : ℤ) : negCol N c zeroG = zeroG := by
  funext i j
  simp [negCol, zeroG]

lemma setBVec_zeroVF (N : ℕ) : setBVec N zeroVF = zeroVF := by
  unfold setBVec
  rw [zeroVF_x, zeroVF_y, negCol_zeroG, negCol_zeroG, negRow_zeroG, negRow_zeroG,
    setB_zeroG]
  exact zeroVF_pair

lemma sweep_zeroG (N : ℕ) (a crecip : ℚ) : sweep N a crecip zeroG zeroG = zeroG := by
  unfold sweep
  generalize interiorCells N = L
  induction L with
  | nil => rfl
  | cons p L ih =>
    simp only [List.foldl_cons]
    have h : upd zeroG p.1 p.2
        ((zeroG p.1 p.2 +
            a * (zeroG (p.1 + 1) p.2 + zeroG (p.1 - 1) p.2 +
                 zeroG p.1 (p.2 + 1) + zeroG p.1 (p.2 - 1))) * crecip) = zeroG := by
      funext i j
      simp [upd, zeroG]
    rw [h]
    exact ih

lemma sweepV_zeroVF (N : ℕ) (a crecip : ℚ) : sweepV N a crecip zeroVF zeroVF = zeroVF := by
  unfold sweepV
  generalize interiorCells N = L
  induction L with
  | nil => rfl
  | cons p L ih =>
    simp only [List.foldl_cons]
    have h : (⟨upd zeroVF.x p.1 p.2
        ((zeroVF.x p.1 p.2 +
            a * (zeroVF.x (p.1 + 1) p.2 + zeroVF.x (p.1 - 1) p.2 +
                 zeroVF.x p.1 (p.2 + 1) + zeroVF.x p.1 (p.2 - 1))) * crecip),
       upd zeroVF.y p.1 p.2
        ((zeroVF.y p.1 p.2 +
            a * (zeroVF.y (p.1 + 1) p.2 + zeroVF.y (p.1 - 1) p.2 +
                 zeroVF.y p.1 (p.2 + 1) + zeroVF.y p.1 (p.2 - 1))) * crecip)⟩ : VF)
        = zeroVF := by
      rw [zeroVF_x, zeroVF_y]
      have hx : upd zeroG p.1 p.2
          ((zeroG p.1 p.2 +
              a * (zeroG (p.1 + 1) p.2 + zeroG (p.1 - 1) p.2 +
                   zeroG p.1 (p.2 + 1) + zeroG p.1 (p.2 - 1))) * crecip) = zeroG := by
        funext i j
        simp [upd, zeroG]
      rw [hx]
      exact zeroVF_pair
    rw [h]
    exact ih

lemma linSolve_zeroG (N nIter : ℕ) (a c : ℚ) : linSolve N nIter a c zeroG zeroG = zeroG := by
  unfold linSolve
  induction nIter with
  | zero => rfl
  | succ k ih =>
    rw [Function.iterate_succ_apply', ih]
    show setB N (sweep N a (1/c) zeroG zeroG) = zeroG
    rw [sweep_zeroG, setB_zeroG]

lemma linSolveV_zeroVF (N nIter : ℕ) (a c : ℚ) :
    linSolveV N nIter a c zeroVF zeroVF = zeroVF := by
  unfold linSolveV
  induction nIter with
  | zero => rfl
  | succ k ih =>
    rw [Function.iterate_succ_apply', ih]
    show setBVec N (sweepV N a (1/c) zeroVF zeroVF) = zeroVF
    rw [sweepV_zeroVF, setBVec_zeroVF]

lemma diffuseV_zeroVF (N nIter : ℕ) (dt d : ℚ) :
    diffuseV N nIter dt zeroVF zeroVF d = zeroVF := by
  unfold diffuseV
  exact linSolveV_zeroVF ..

lemma computeDiv_zero (N : ℕ) : computeDiv N zeroG zeroG zeroG = zeroG := by
  funext i j
  unfold computeDiv zeroG
  split_ifs <;> norm_num

lemma zeroInterior_zero (N : ℕ) : zeroInterior N zeroG = zeroG := by
  funext i j
  unfold zeroInterior zeroG
  split_ifs <;> rfl

lemma gradSubX_zero (N : ℕ) : gradSubX N zeroG zeroG = zeroG := by
  funext i j
  unfold gradSubX zeroG
  split_ifs <;> norm_num

lemma gradSubY_zero (N : ℕ) : gradSubY N zeroG zeroG = zeroG := by
  funext i j
  unfold gradSubY zeroG
  split_ifs <;> norm_num

lemma bilerp_zeros (s1 t1 : ℚ) : bilerp s1 t1 0 0 0 0 = 0 := by
  unfold bilerp
  ring

lemma advectCell_zeroD0 (N : ℕ) (dt : ℚ) (vx vy : Grid) (i j : ℤ) :
    advectCell N dt zeroG vx vy i j = 0 := by
  simp only [advectCell, zeroG]
  exact bilerp_zeros _ _

lemma advect_zeroAll (N : ℕ) (dt : ℚ) (vx vy : Grid) :
    advect N dt zeroG zeroG vx vy = zeroG := by
  unfold advect
  have h : (fun i j =>
      if interior N i j then advectCell N dt zeroG vx vy i j else zeroG i j) = zeroG := by
    funext i j
    split_ifs with hin
    · exact advectCell_zeroD0 ..
    · rfl
  rw [h, setB_zeroG]

lemma projectA_zero (sz it : ℕ) (dt df vs : ℚ) (sG dG : Grid) :
    Fluid.projectA ⟨sz, dt, it, df, vs, sG, dG, zeroVF, zeroVF⟩
      = ⟨sz, dt, it, df, vs, sG, dG, zeroVF, zeroVF⟩ := by
  simp only [Fluid.projectA, zeroVF_x, zeroVF_y]
  rw [computeDiv_zero, zeroInterior_zero, setB_zeroG, linSolve_zeroG,
    gradSubX_zero, gradSubY_zero, zeroVF_pair, setBVec_zeroVF]

lemma projectB_zero (sz it : ℕ) (dt df vs : ℚ) (sG dG : Grid) :
    Fluid.projectB ⟨sz, dt, it, df, vs, sG, dG, zeroVF, zeroVF⟩
      = ⟨sz, dt, it, df, vs, sG, dG, zeroVF, zeroVF⟩ := by
  simp only [Fluid.projectB, zeroVF_x, zeroVF_y]
  rw [computeDiv_zero, zeroInterior_zero, setB_zeroG, linSolve_zeroG,
    gradSubX_zero, gradSubY_zero, zeroVF_pair, setBVec_zeroVF]

lemma clampQ_id {N : ℕ} {q : ℚ} (h1 : 1/2 ≤ q) (h2 : q ≤ (N : ℚ) + 1/2) :
    clampQ N q = q := by
  unfold clampQ
  split_ifs <;> first | rfl | linarith

lemma advectX_zero_vel {N : ℕ} {dt : ℚ} {i : ℤ} (j : ℤ)
    (h1 : 1 ≤ i) (h2 : i ≤ (N : ℤ) - 2) :
    advectX N dt zeroG i j = (i : ℚ) := by
  unfold advectX zeroG
  rw [mul_zero, sub_zero]
  apply clampQ_id
  · have h : (1 : ℚ) ≤ (i : ℚ) := by exact_mod_cast h1
    linarith
  · have h : (i : ℚ) ≤ (N : ℚ) - 2 := by exact_mod_cast h2
    linarith

lemma advectY_zero_vel {N : ℕ} {dt : ℚ} {j : ℤ} (i : ℤ)
    (h1 : 1 ≤ j) (h2 : j ≤ (N : ℤ) - 2) :
    advectY N dt zeroG i j = (j : ℚ) := by
  unfold advectY zeroG
  rw [mul_zero, sub_zero]
  apply clampQ_id
  · have h : (1 : ℚ) ≤ (j : ℚ) := by exact_mod_cast h1
    linarith
  · have h : (j : ℚ) ≤ (N : ℚ) - 2 := by exact_mod_cast h2
    linarith

/-- With zero velocity the back-trace lands exactly on the cell itself and the
interpolation returns the source value unchanged. -/
lemma advectCell_zero_vel {N : ℕ} {dt : ℚ} {d0 : Grid} {i j : ℤ}
    (h : interior N i j) :
    advectCell N dt d0 zeroG zeroG i j = d0 i j := by
  obtain ⟨h1, h2, h3, h4⟩ := h
  simp only [advectCell]
  rw [advectX_zero_vel j h1 h2, advectY_zero_vel i h3 h4,
    Int.floor_intCast, Int.floor_intCast, sub_self, sub_self]
  unfold bilerp
  ring

/-- Advecting `d` from the diffusion (rate 0) of `d` along a zero velocity
field reduces to `set_boundaries` applied to `d` itself. -/
lemma advect_diffuse0 {N nIter : ℕ} {dt dtD : ℚ} {sG dG : Grid} (hiter : 1 ≤ nIter) :
    advect N dt dG (diffuse N nIter dtD sG dG 0) zeroG zeroG = setB N dG := by
  unfold advect
  have h : (fun i j =>
      if interior N i j then
        advectCell N dt (diffuse N nIter dtD sG dG 0) zeroG zeroG i j
      else dG i j) = dG := by
    funext i j
    split_ifs with hin
    · rw [advectCell_zero_vel hin, diffuse_zero_interior hiter hin]
    · rfl
  rw [h]

/-- With zero velocity buffers and diffusion rate 0, one `step()` maps the
density field to `set_boundaries` of itself: the velocity pipeline keeps all
velocity buffers at zero, the density diffusion is an identity copy into `s`,
and the final advection copies it back, so only the corner pass touches
density. -/
lemma step_density_zero_vel (st : Fluid) (hiter : 1 ≤ st.nIter) (hdiff : st.diff = 0)
    (hv : st.velo = zeroVF) (hv0 : st.velo0 = zeroVF) :
    (Fluid.step st).density = setB st.size st.density := by
  simp only [Fluid.step]
  rw [hv, hv0, hdiff, diffuseV_zeroVF, projectA_zero]
  simp only [zeroVF_x, zeroVF_y]
  rw [advect_zeroAll, zeroVF_pair, projectB_zero]
  simp only [zeroVF_x, zeroVF_y]
  rw [advect_diffuse0 hiter]

lemma setB_corner00 {N : ℕ} (hN : 4 ≤ N) (f : Grid) :
    setB N f 0 0 = (1/2) * (f 1 0 + f 0 1) := by
  simp only [setB, upd]
  split_ifs <;> first | rfl | (exfalso; omega) | simp_all

lemma setB_corner0L {N : ℕ} (hN : 4 ≤ N) (f : Grid) :
    setB N f 0 ((N : ℤ) - 1) = (1/2) * (f 1 ((N : ℤ) - 1) + f 0 ((N : ℤ) - 2)) := by
  simp only [setB, upd]
  split_ifs <;> first | rfl | (exfalso; omega) | simp_all

lemma setB_cornerL0 {N : ℕ} (hN : 4 ≤ N) (f : Grid) :
    setB N f ((N : ℤ) - 1) 0 = (1/2) * (f ((N : ℤ) - 2) 0 + f ((N : ℤ) - 1) 1) := by
  simp only [setB, upd]
  split_ifs <;> first | rfl | (exfalso; omega) | simp_all

lemma setB_cornerLL {N : ℕ} (hN : 4 ≤ N) (f : Grid) :
    setB N f ((N : ℤ) - 1) ((N : ℤ) - 1)
      = (1/2) * f ((N : ℤ) - 2) ((N : ℤ) - 1) + f ((N : ℤ) - 1) ((N : ℤ) - 2) := by
  simp only [setB, upd]
  split_ifs <;> first | rfl | (exfalso; omega) | simp_all

/-- On a field that vanishes on the whole border, the corner pass is the
identity: every corner is recomputed from border cells, which are zero. -/
lemma setB_border_zero {N : ℕ} {f : Grid} (hN : 4 ≤ N)
    (hb : ∀ i j : ℤ, (i = 0 ∨ i = (N : ℤ) - 1 ∨ j = 0 ∨ j = (N : ℤ) - 1) → f i j = 0) :
    setB N f = f := by
  funext i j
  by_cases hc : isCorner N i j
  · obtain ⟨hi, hj⟩ := hc
    rcases hi with rfl | rfl <;> rcases hj with rfl | rfl
    · rw [setB_corner00 hN, hb 1 0 (by omega), hb 0 1 (by omega), hb 0 0 (by omega)]
      norm_num
    · rw [setB_corner0L hN, hb 1 ((N : ℤ) - 1) (by omega),
        hb 0 ((N : ℤ) - 2) (by omega), hb 0 ((N : ℤ) - 1) (by omega)]
      norm_num
    · rw [setB_cornerL0 hN, hb ((N : ℤ) - 2) 0 (by omega),
        hb ((N : ℤ) - 1) 1 (by omega), hb ((N : ℤ) - 1) 0 (by omega)]
      norm_num
    · rw [setB_cornerLL hN, hb ((N : ℤ) - 2) ((N : ℤ) - 1) (by omega),
        hb ((N : ℤ) - 1) ((N : ℤ) - 2) (by omega),
        hb ((N : ℤ) - 1) ((N : ℤ) - 1) (by omega)]
      norm_num
  · rw [setB_noncorner hc]

/-- The total of an `N×N` grid over its cells (the observable of the
mass-conservation property). -/
def sumGrid (N : ℕ) (f : Grid) : ℚ :=
  ∑ p ∈ Finset.range N ×ˢ Finset.range N, f ((p.1 : ℕ) : ℤ) ((p.2 : ℕ) : ℤ)

/-! A four-cell discrete vortex.  It is the centered-difference curl of a
one-cell stream function at (20, 20), so its discrete divergence — the exact
stencil `project` computes — vanishes at every cell, and it passes both
projection passes of `step` unchanged.  It powers the moving-fluid half of the
C8 counterexample. -/

/-- The x-component of the vortex of strength `e`: `+e` at (20, 19), `-e` at
(20, 21), zero elsewhere. -/
def vortX (e : ℚ) : Grid := upd (upd zeroG 20 19 e) 20 21 (-e)

/-- The y-component of the vortex of strength `e`: `-e` at (19, 20), `+e` at
(21, 20), zero elsewhere. -/
def vortY (e : ℚ) : Grid := upd (upd zeroG 19 20 (-e)) 21 20 e

/-- The vortex as a 2-vector field. -/
def vortV (e : ℚ) : VF := ⟨vortX e, vortY e⟩

lemma vortV_x (e : ℚ) : (vortV e).x = vortX e := rfl

lemma vortV_y (e : ℚ) : (vortV e).y = vortY e := rfl

lemma vortV_pair (e : ℚ) : (⟨vortX e, vortY e⟩ : VF) = vortV e := rfl

lemma vortX_other (e : ℚ) (i j : ℤ) (h1 : ¬ (i = 20 ∧ j = 19))
    (h2 : ¬ (i = 20 ∧ j = 21)) : vortX e i j = 0 := by
  unfold vortX upd zeroG
  split_ifs
  rfl

lemma vortY_other (e : ℚ) (i j : ℤ) (h1 : ¬ (i = 19 ∧ j = 20))
    (h2 : ¬ (i = 21 ∧ j = 20)) : vortY e i j = 0 := by
  unfold vortY upd zeroG
  split_ifs
  rfl

lemma vortX_outside (e : ℚ) (i j : ℤ) (h : ¬ interior 40 i j) : vortX e i j = 0 := by
  unfold interior at h
  unfold vortX upd zeroG
  split_ifs <;> first | rfl | (exfalso; omega)

lemma vortY_outside (e : ℚ) (i j : ℤ) (h : ¬ interior 40 i j) : vortY e i j = 0 := by
  unfold interior at h
  unfold vortY upd zeroG
  split_ifs <;> first | rfl | (exfalso; omega)

/-- The vortex is exactly divergence-free for the centered stencil `project`
uses: at every cell the four reads cancel. -/
lemma vort_div_free (e : ℚ) (i j : ℤ) :
    vortX e (i + 1) j - vortX e (i - 1) j + vortY e i (j + 1) - vortY e i (j - 1) = 0 := by
  unfold vortX vortY upd zeroG
  split_ifs <;> first | (exfalso; omega) | ring

/-- The divergence pass of `project`, applied to the vortex with any scratch
buffer that vanishes off the interior, produces the zero grid. -/
lemma computeDiv_vort (e : ℚ) (D : Grid) (hD : ∀ i j, ¬ interior 40 i j → D i j = 0) :
    computeDiv 40 (vortX e) (vortY e) D = zeroG := by
  funext i j
  unfold computeDiv
  split_ifs with h
  · rw [vort_div_free]
    norm_num
    rfl
  · exact hD i j h

lemma zeroInterior_vortX (e : ℚ) : zeroInterior 40 (vortX e) = zeroG := by
  funext i j
  unfold zeroInterior
  split_ifs with h
  · rfl
  · exact vortX_outside e i j h

/-- The gradient subtraction with a zero potential is the identity. -/
lemma gradSubX_p0 (N : ℕ) (v : Grid) : gradSubX N zeroG v = v := by
  funext i j
  unfold gradSubX zeroG
  split_ifs <;> norm_num

lemma gradSubY_p0 (N : ℕ) (v : Grid) : gradSubY N zeroG v = v := by
  funext i j
  unfold gradSubY zeroG
  split_ifs <;> norm_num

lemma negRow_of_zero {N : ℕ} {r : ℤ} {g : Grid} (h : ∀ i, g i r = 0) :
    negRow N r g = g := by
  funext i j
  unfold negRow
  split_ifs with hc
  · rw [hc.1, h i, neg_zero]
  · rfl

lemma negCol_of_zero {N : ℕ} {c : ℤ} {g : Grid} (h : ∀ j, g c j = 0) :
    negCol N c g = g := by
  funext i j
  unfold negCol
  split_ifs with hc
  · rw [hc.1, h j, neg_zero]
  · rfl

/-- The boundary enforcer leaves the (interior-supported) vortex unchanged. -/
lemma setBVec_vort (e : ℚ) : setBVec 40 (vortV e) = vortV e := by
  unfold setBVec
  rw [vortV_x, vortV_y]
  rw [negCol_of_zero (fun j => vortX_outside e 0 j (by unfold interior; omega))]
  rw [negCol_of_zero (fun j => vortX_outside e (((40 : ℕ) : ℤ) - 1) j
    (by unfold interior; omega))]
  rw [negRow_of_zero (fun i => vortY_outside e i 0 (by unfold interior; omega))]
  rw [negRow_of_zero (fun i => vortY_outside e i (((40 : ℕ) : ℤ) - 1)
    (by unfold interior; omega))]
  rw [setB_border_zero (by norm_num) (fun i j hb => vortX_outside e i j
    (by unfold interior at *; omega))]
  rw [setB_border_zero (by norm_num) (fun i j hb => vortY_outside e i j
    (by unfold interior at *; omega))]
  exact vortV_pair e

/-- A vector relaxation sweep is the pair of the component sweeps: the NumPy
2-vector cell update acts componentwise and the components never cross-read. -/
lemma sweepV_components (N : ℕ) (a crecip : ℚ) (x0 x : VF) :
    sweepV N a crecip x0 x = ⟨sweep N a crecip x0.x x.x, sweep N a crecip x0.y x.y⟩ := by
  unfold sweepV sweep
  generalize interiorCells N = L
  induction L generalizing x with
  | nil => rfl
  | cons p L ih =>
    simp only [List.foldl_cons]
    rw [ih]

/-- One `lin_solve` pass with `a = 0, c = 1` on a vector field whose target
agrees with the source off the interior returns the (boundary-stable) source. -/
lemma pass0_eq {N : ℕ} {x0 : VF} (hb : setBVec N x0 = x0) (x : VF)
    (hxx : ∀ i j, ¬ interior N i j → x.x i j = x0.x i j)
    (hxy : ∀ i j, ¬ interior N i j → x.y i j = x0.y i j) :
    setBVec N (sweepV N 0 1 x0 x) = x0 := by
  have h : sweepV N 0 1 x0 x = x0 := by
    rw [sweepV_components]
    have h1 : sweep N 0 1 x0.x x.x = x0.x := by
      funext i j
      rw [sweep_zero]
      split_ifs with hin
      · rfl
      · exact hxx i j hin
    have h2 : sweep N 0 1 x0.y x.y = x0.y := by
      funext i j
      rw [sweep_zero]
      split_ifs with hin
      · rfl
      · exact hxy i j hin
    rw [h1, h2]
  rw [h, hb]

lemma advectX_of_zero {N : ℕ} {dt : ℚ} {vx : Grid} {i j : ℤ} (hv : vx i j = 0)
    (h1 : 1 ≤ i) (h2 : i ≤ (N : ℤ) - 2) :
    advectX N dt vx i j = (i : ℚ) := by
  unfold advectX
  rw [hv, mul_zero, sub_zero]
  apply clampQ_id
  · have h : (1 : ℚ) ≤ (i : ℚ) := by exact_mod_cast h1
    linarith
  · have h : (i : ℚ) ≤ (N : ℚ) - 2 := by exact_mod_cast h2
    linarith

lemma advectY_of_zero {N : ℕ} {dt : ℚ} {vy : Grid} {i j : ℤ} (hv : vy i j = 0)
    (h1 : 1 ≤ j) (h2 : j ≤ (N : ℤ) - 2) :
    advectY N dt vy i j = (j : ℚ) := by
  unfold advectY
  rw [hv, mul_zero, sub_zero]
  apply clampQ_id
  · have h : (1 : ℚ) ≤ (j : ℚ) := by exact_mod_cast h1
    linarith
  · have h : (j : ℚ) ≤ (N : ℚ) - 2 := by exact_mod_cast h2
    linarith

/-- A cell whose own velocity sample is zero back-traces onto itself, so
`advect` copies the source value there (only the cell's own velocity is read). -/
lemma advectCell_fixed {N : ℕ} {dt : ℚ} {d0 vx vy : Grid} {i j : ℤ}
    (hvx : vx i j = 0) (hvy : vy i j = 0) (h : interior N i j) :
    advectCell N dt d0 vx vy i j = d0 i j := by
  obtain ⟨h1, h2, h3, h4⟩ := h
  simp only [advectCell]
  rw [advectX_of_zero hvx h1 h2, advectY_of_zero hvy h3 h4,
    Int.floor_intCast, Int.floor_intCast, sub_self, sub_self]
  unfold bilerp
  ring

/-- Advecting the vortex x-component along the vortex of strength 1/10: each of
the four vortex cells back-traces by 0.76 of a cell, attenuating the component
to strength (6/25)·(1/10) = 3/125; every other cell back-traces onto itself. -/
lemma advect_vortX :
    advect 40 (1/5) zeroG (vortX (1/10)) (vortX (1/10)) (vortY (1/10))
      = vortX (3/125) := by
  unfold advect
  have hfun : (fun i j => if interior 40 i j then
      advectCell 40 (1/5) (vortX (1/10)) (vortX (1/10)) (vortY (1/10)) i j
      else zeroG i j) = vortX (3/125) := by
    funext i j
    by_cases hA : i = 20 ∧ j = 19
    · obtain ⟨rfl, rfl⟩ := hA
      rw [if_pos (by unfold interior; norm_num)]
      simp only [advectCell]
      rw [show advectX 40 (1/5) (vortX (1/10)) 20 19 = 481/25 from by
        norm_num [advectX, clampQ, vortX, upd, zeroG]]
      rw [show advectY 40 (1/5) (vortY (1/10)) 20 19 = 19 from by
        norm_num [advectY, clampQ, vortY, upd, zeroG]]
      rw [show ⌊(481/25 : ℚ)⌋ = 19 from by rw [Int.floor_eq_iff]; norm_num]
      rw [show ⌊(19 : ℚ)⌋ = 19 from by rw [Int.floor_eq_iff]; norm_num]
      unfold bilerp
      norm_num [vortX, upd, zeroG]
    · by_cases hB : i = 20 ∧ j = 21
      · obtain ⟨rfl, rfl⟩ := hB
        rw [if_pos (by unfold interior; norm_num)]
        simp only [advectCell]
        rw [show advectX 40 (1/5) (vortX (1/10)) 20 21 = 519/25 from by
          norm_num [advectX, clampQ, vortX, upd, zeroG]]
        rw [show advectY 40 (1/5) (vortY (1/10)) 20 21 = 21 from by
          norm_num [advectY, clampQ, vortY, upd, zeroG]]
        rw [show ⌊(519/25 : ℚ)⌋ = 20 from by rw [Int.floor_eq_iff]; norm_num]
        rw [show ⌊(21 : ℚ)⌋ = 21 from by rw [Int.floor_eq_iff]; norm_num]
        unfold bilerp
        norm_num [vortX, upd, zeroG]
      · by_cases hC : i = 19 ∧ j = 20
        · obtain ⟨rfl, rfl⟩ := hC
          rw [if_pos (by unfold interior; norm_num)]
          simp only [advectCell]
          rw [show advectX 40 (1/5) (vortX (1/10)) 19 20 = 19 from by
            norm_num [advectX, clampQ, vortX, upd, zeroG]]
          rw [show advectY 40 (1/5) (vortY (1/10)) 19 20 = 519/25 from by
            norm_num [advectY, clampQ, vortY, upd, zeroG]]
          rw [show ⌊(19 : ℚ)⌋ = 19 from by rw [Int.floor_eq_iff]; norm_num]
          rw [show ⌊(519/25 : ℚ)⌋ = 20 from by rw [Int.floor_eq_iff]; norm_num]
          unfold bilerp
          norm_num [vortX, upd, zeroG]
        · by_cases hD : i = 21 ∧ j = 20
          · obtain ⟨rfl, rfl⟩ := hD
            rw [if_pos (by unfold interior; norm_num)]
            simp only [advectCell]
            rw [show advectX 40 (1/5) (vortX (1/10)) 21 20 = 21 from by
              norm_num [advectX, clampQ, vortX, upd, zeroG]]
            rw [show advectY 40 (1/5) (vortY (1/10)) 21 20 = 481/25 from by
              norm_num [advectY, clampQ, vortY, upd, zeroG]]
            rw [show ⌊(21 : ℚ)⌋ = 21 from by rw [Int.floor_eq_iff]; norm_num]
            rw [show ⌊(481/25 : ℚ)⌋ = 19 from by rw [Int.floor_eq_iff]; norm_num]
            unfold bilerp
            norm_num [vortX, upd, zeroG]
          · by_cases hin : interior 40 i j
            · rw [if_pos hin]
              rw [advectCell_fixed (vortX_other _ i j hA hB)
                (vortY_other _ i j hC hD) hin]
              rw [vortX_other _ i j hA hB, vortX_other _ i j hA hB]
            · rw [if_neg hin, vortX_other _ i j hA hB]
              rfl
  rw [hfun]
  exact setB_border_zero (by norm_num)
    (fun i j hb => vortX_other _ i j (by omega) (by omega))

/-- Advecting the vortex y-component along the vortex of strength 1/10:
symmetric to `advect_vortX`, yielding strength 3/125. -/
lemma advect_vortY :
    advect 40 (1/5) zeroG (vortY (1/10)) (vortX (1/10)) (vortY (1/10))
      = vortY (3/125) := by
  unfold advect
  have hfun : (fun i j => if interior 40 i j then
      advectCell 40 (1/5) (vortY (1/10)) (vortX (1/10)) (vortY (1/10)) i j
      else zeroG i j) = vortY (3/125) := by
    funext i j
    by_cases hA : i = 20 ∧ j = 19
    · obtain ⟨rfl, rfl⟩ := hA
      rw [if_pos (by unfold interior; norm_num)]
      simp only [advectCell]
      rw [show advectX 40 (1/5) (vortX (1/10)) 20 19 = 481/25 from by
        norm_num [advectX, clampQ, vortX, upd, zeroG]]
      rw [show advectY 40 (1/5) (vortY (1/10)) 20 19 = 19 from by
        norm_num [advectY, clampQ, vortY, upd, zeroG]]
      rw [show ⌊(481/25 : ℚ)⌋ = 19 from by rw [Int.floor_eq_iff]; norm_num]
      rw [show ⌊(19 : ℚ)⌋ = 19 from by rw [Int.floor_eq_iff]; norm_num]
      unfold bilerp
      norm_num [vortY, upd, zeroG]
    · by_cases hB : i = 20 ∧ j = 21
      · obtain ⟨rfl, rfl⟩ := hB
        rw [if_pos (by unfold interior; norm_num)]
        simp only [advectCell]
        rw [show advectX 40 (1/5) (vortX (1/10)) 20 21 = 519/25 from by
          norm_num [advectX, clampQ, vortX, upd, zeroG]]
        rw [show advectY 40 (1/5) (vortY (1/10)) 20 21 = 21 from by
          norm_num [advectY, clampQ, vortY, upd, zeroG]]
        rw [show ⌊(519/25 : ℚ)⌋ = 20 from by rw [Int.floor_eq_iff]; norm_num]
        rw [show ⌊(21 : ℚ)⌋ = 21 from by rw [Int.floor_eq_iff]; norm_num]
        unfold bilerp
        norm_num [vortY, upd, zeroG]
      · by_cases hC : i = 19 ∧ j = 20
        · obtain ⟨rfl, rfl⟩ := hC
          rw [if_pos (by unfold interior; norm_num)]
          simp only [advectCell]
          rw [show advectX 40 (1/5) (vortX (1/10)) 19 20 = 19 from by
            norm_num [advectX, clampQ, vortX, upd, zeroG]]
          rw [show advectY 40 (1/5) (vortY (1/10)) 19 20 = 519/25 from by
            norm_num [advectY, clampQ, vortY, upd, zeroG]]
          rw [show ⌊(19 : ℚ)⌋ = 19 from by rw [Int.floor_eq_iff]; norm_num]
          rw [show ⌊(519/25 : ℚ)⌋ = 20 from by rw [Int.floor_eq_iff]; norm_num]
          unfold bilerp
          norm_num [vortY, upd, zeroG]
        · by_cases hD : i = 21 ∧ j = 20
          · obtain ⟨rfl, rfl⟩ := hD
            rw [if_pos (by unfold interior; norm_num)]
            simp only [advectCell]
            rw [show advectX 40 (1/5) (vortX (1/10)) 21 20 = 21 from by
              norm_num [advectX, clampQ, vortX, upd, zeroG]]
            rw [show advectY 40 (1/5) (vortY (1/10)) 21 20 = 481/25 from by
              norm_num [advectY, clampQ, vortY, upd, zeroG]]
            rw [show ⌊(21 : ℚ)⌋ = 21 from by rw [Int.floor_eq_iff]; norm_num]
            rw [show ⌊(481/25 : ℚ)⌋ = 19 from by rw [Int.floor_eq_iff]; norm_num]
            unfold bilerp
            norm_num [vortY, upd, zeroG]
          · by_cases hin : interior 40 i j
            · rw [if_pos hin]
              rw [advectCell_fixed (vortX_other _ i j hA hB)
                (vortY_other _ i j hC hD) hin]
              rw [vortY_other _ i j hC hD, vortY_other _ i j hC hD]
            · rw [if_neg hin, vortY_other _ i j hC hD]
              rfl
  rw [hfun]
  exact setB_border_zero (by norm_num)
    (fun i j hb => vortY_other _ i j (by omega) (by omega))

/-- C8 amended: with zero velocity and previous-velocity buffers,
`diff = visc = 0`, and a density that vanishes on every border cell, one
`step()` leaves the density field exactly unchanged — in particular the density
sum is conserved exactly.  Both restrictions are forced by the counterexample:
density at a corner is wiped by the corner pass even at zero velocity, and a
moving fluid (the divergence-free vortex scenario) loses mass even with a
border-zero density. -/
theorem C8_amended (st : Fluid) (hN : 4 ≤ st.size) (hiter : 1 ≤ st.nIter)
    (hdiff : st.diff = 0) (_hvisc : st.visc = 0)
    (hv : st.velo = zeroVF) (hv0 : st.velo0 = zeroVF)
    (hb : ∀ i j : ℤ,
      (i = 0 ∨ i = (st.size : ℤ) - 1 ∨ j = 0 ∨ j = (st.size : ℤ) - 1) →
      st.density i j = 0) :
    (Fluid.step st).density = st.density ∧
    sumGrid st.size ((Fluid.step st).density) = sumGrid st.size st.density := by
  have h := step_density_zero_vel st hiter hdiff hv hv0
  have h2 : (Fluid.step st).density = st.density := by
    rw [h, setB_border_zero hN hb]
  exact ⟨h2, by rw [h2]⟩

/-- A reachable simulation state: the default construction after the external
driver adds 9 units of density at the interior cell (5, 5). -/
def stW : Fluid := ⟨40, 1/5, 2, 0, 0, zeroG, upd zeroG 5 5 9, zeroVF, zeroVF⟩

/-- C8 witness: the amended theorem applied to the default-size state `stW`
whose density mass sits at the interior cell (5, 5). -/
theorem C8_amended_witness :
    (Fluid.step stW).density = stW.density ∧
    sumGrid stW.size ((Fluid.step stW).density) = sumGrid stW.size stW.density :=
  C8_amended stW (by norm_num [stW]) (by norm_num [stW]) rfl rfl rfl rfl
    (by
      intro i j hbij
      rw [show ((stW.size : ℕ) : ℤ) = 40 from rfl] at hbij
      show upd zeroG 5 5 9 i j = 0
      unfold upd zeroG
      rw [if_neg]
      omega)

/-- A reachable simulation state: the default construction after the external
driver adds 100 units of density at the corner cell (0, 0) (the driver has
direct write access to the density grid). -/
def st8 : Fluid := ⟨40, 1/5, 2, 0, 0, zeroG, upd zeroG 0 0 100, zeroVF, zeroVF⟩

lemma st8_after : (Fluid.step st8).density = zeroG := by
  have h := step_density_zero_vel st8 (by norm_num [st8]) rfl rfl rfl
  rw [h]
  show setB 40 (upd zeroG 0 0 100) = zeroG
  funext i j
  by_cases hc : isCorner 40 i j
  · obtain ⟨hi, hj⟩ := hc
    rcases hi with rfl | rfl <;> rcases hj with rfl | rfl
    · rw [setB_corner00 (by norm_num)]
      norm_num [upd, zeroG]
    · rw [setB_corner0L (by norm_num)]
      norm_num [upd, zeroG]
    · rw [setB_cornerL0 (by norm_num)]
      norm_num [upd, zeroG]
    · rw [setB_cornerLL (by norm_num)]
      norm_num [upd, zeroG]
  · rw [setB_noncorner hc]
    unfold isCorner at hc
    unfold upd zeroG
    rw [if_neg]
    omega

lemma sumGrid_st8_before : sumGrid 40 st8.density = 100 := by
  show sumGrid 40 (upd zeroG 0 0 100) = 100
  unfold sumGrid
  rw [Finset.sum_eq_single ((0 : ℕ), (0 : ℕ))]
  · norm_num [upd, zeroG]
  · rintro ⟨a, b⟩ hmem hne
    unfold upd zeroG
    rw [if_neg]
    rintro ⟨ha, hb⟩
    apply hne
    have ha2 : a = 0 := by exact_mod_cast ha
    have hb2 : b = 0 := by exact_mod_cast hb
    rw [ha2, hb2]
  · intro hnm
    exfalso
    apply hnm
    rw [Finset.mem_product]
    constructor <;> simp

/-- The density of the moving-fluid scenario: one unit at interior cell
(20, 19) — the cell where the vortex x-velocity is nonzero — and zero
everywhere else, in particular on every border cell. -/
def dEx : Grid := upd zeroG 20 19 1

/-- A reachable simulation state with a MOVING fluid: the default construction
after the external driver deposits one unit of density at interior cell
(20, 19) and writes the strength-1/10 vortex into the velocity field (both
grids are driver-writable; `velo0` and `s` still hold their zero-initialized
contents).  Density vanishes on every border cell and `diff = visc = 0`. -/
def stV : Fluid := ⟨40, 1/5, 2, 0, 0, zeroG, dEx, vortV (1/10), zeroVF⟩

/-- Diffusing the velocity with `visc = 0` copies the vortex from `velo` into
`velo0` (whose border stays zero, matching the vortex's zero border). -/
lemma diffuseV_vort : diffuseV 40 2 (1/5) zeroVF (vortV (1/10)) 0 = vortV (1/10) := by
  unfold diffuseV
  rw [show ((1 : ℚ)/5 * 0 * ((((40 : ℕ) : ℤ) : ℚ) - 2) * ((((40 : ℕ) : ℤ) : ℚ) - 2))
      = 0 from by ring]
  rw [show (1 : ℚ) + 6 * 0 = 1 from by norm_num]
  unfold linSolveV
  simp only [one_div_one]
  have e0 : (fun y => setBVec 40 (sweepV 40 0 1 (vortV (1/10)) y))^[2] zeroVF
      = setBVec 40 (sweepV 40 0 1 (vortV (1/10))
          (setBVec 40 (sweepV 40 0 1 (vortV (1/10)) zeroVF))) := rfl
  rw [e0]
  rw [pass0_eq (setBVec_vort _) zeroVF
    (fun i j h => (vortX_outside _ i j h).symm)
    (fun i j h => (vortY_outside _ i j h).symm)]
  exact pass0_eq (setBVec_vort _) (vortV (1/10))
    (fun i j h => rfl) (fun i j h => rfl)

/-- The first projection pass leaves the (divergence-free) vortex in `velo0`
untouched and zeroes the `velo` scratch pair. -/
lemma projectA_vort (sG dG : Grid) :
    Fluid.projectA ⟨40, 1/5, 2, 0, 0, sG, dG, vortV (1/10), vortV (1/10)⟩
      = ⟨40, 1/5, 2, 0, 0, sG, dG, zeroVF, vortV (1/10)⟩ := by
  simp only [Fluid.projectA, vortV_x, vortV_y]
  rw [computeDiv_vort _ _ (fun i j h => vortY_outside _ i j h)]
  rw [zeroInterior_vortX, setB_zeroG, linSolve_zeroG, gradSubX_p0, gradSubY_p0,
    vortV_pair, zeroVF_pair, setBVec_zeroVF]

/-- The second projection pass leaves the (divergence-free) advected vortex in
`velo` untouched and zeroes the `velo0` scratch pair. -/
lemma projectB_vort (sG dG : Grid) :
    Fluid.projectB ⟨40, 1/5, 2, 0, 0, sG, dG, vortV (3/125), vortV (1/10)⟩
      = ⟨40, 1/5, 2, 0, 0, sG, dG, vortV (3/125), zeroVF⟩ := by
  simp only [Fluid.projectB, vortV_x, vortV_y]
  rw [computeDiv_vort _ _ (fun i j h => vortY_outside _ i j h)]
  rw [zeroInterior_vortX, setB_zeroG, linSolve_zeroG, gradSubX_p0, gradSubY_p0,
    vortV_pair, zeroVF_pair, setBVec_vort]

/-- Advecting the point-mass density along the strength-3/125 vortex: only the
cell (20, 19) moves — it back-traces by 114/625 of a cell and keeps only the
weight 511/625 of its own unit of mass; every other cell copies itself. -/
lemma advect_density_vort :
    advect 40 (1/5) dEx (diffuse 40 2 (1/5) zeroG dEx 0)
      (vortX (3/125)) (vortY (3/125)) = upd zeroG 20 19 (511/625) := by
  have sLem : ∀ a b : ℤ, interior 40 a b →
      diffuse 40 2 (1/5) zeroG dEx 0 a b = dEx a b :=
    fun a b h => diffuse_zero_interior (by norm_num) h
  unfold advect
  have hfun : (fun i j => if interior 40 i j then
      advectCell 40 (1/5) (diffuse 40 2 (1/5) zeroG dEx 0)
        (vortX (3/125)) (vortY (3/125)) i j
      else dEx i j) = upd zeroG 20 19 (511/625) := by
    funext i j
    by_cases hA : i = 20 ∧ j = 19
    · obtain ⟨rfl, rfl⟩ := hA
      rw [if_pos (by unfold interior; norm_num)]
      simp only [advectCell]
      rw [show advectX 40 (1/5) (vortX (3/125)) 20 19 = 12386/625 from by
        norm_num [advectX, clampQ, vortX, upd, zeroG]]
      rw [show advectY 40 (1/5) (vortY (3/125)) 20 19 = 19 from by
        norm_num [advectY, clampQ, vortY, upd, zeroG]]
      rw [show ⌊(12386/625 : ℚ)⌋ = 19 from by rw [Int.floor_eq_iff]; norm_num]
      rw [show ⌊(19 : ℚ)⌋ = 19 from by rw [Int.floor_eq_iff]; norm_num]
      unfold bilerp
      rw [sLem 19 19 (by unfold interior; norm_num),
        sLem 19 (19 + 1) (by unfold interior; norm_num),
        sLem (19 + 1) 19 (by unfold interior; norm_num),
        sLem (19 + 1) (19 + 1) (by unfold interior; norm_num)]
      norm_num [dEx, upd, zeroG]
    · by_cases hB : i = 20 ∧ j = 21
      · obtain ⟨rfl, rfl⟩ := hB
        rw [if_pos (by unfold interior; norm_num)]
        simp only [advectCell]
        rw [show advectX 40 (1/5) (vortX (3/125)) 20 21 = 12614/625 from by
          norm_num [advectX, clampQ, vortX, upd, zeroG]]
        rw [show advectY 40 (1/5) (vortY (3/125)) 20 21 = 21 from by
          norm_num [advectY, clampQ, vortY, upd, zeroG]]
        rw [show ⌊(12614/625 : ℚ)⌋ = 20 from by rw [Int.floor_eq_iff]; norm_num]
        rw [show ⌊(21 : ℚ)⌋ = 21 from by rw [Int.floor_eq_iff]; norm_num]
        unfold bilerp
        rw [sLem 20 21 (by unfold interior; norm_num),
          sLem 20 (21 + 1) (by unfold interior; norm_num),
          sLem (20 + 1) 21 (by unfold interior; norm_num),
          sLem (20 + 1) (21 + 1) (by unfold interior; norm_num)]
        norm_num [dEx, upd, zeroG]
      · by_cases hC : i = 19 ∧ j = 20
        · obtain ⟨rfl, rfl⟩ := hC
          rw [if_pos (by unfold interior; norm_num)]
          simp only [advectCell]
          rw [show advectX 40 (1/5) (vortX (3/125)) 19 20 = 19 from by
            norm_num [advectX, clampQ, vortX, upd, zeroG]]
          rw [show advectY 40 (1/5) (vortY (3/125)) 19 20 = 12614/625 from by
            norm_num [advectY, clampQ, vortY, upd, zeroG]]
          rw [show ⌊(19 : ℚ)⌋ = 19 from by rw [Int.floor_eq_iff]; norm_num]
          rw [show ⌊(12614/625 : ℚ)⌋ = 20 from by rw [Int.floor_eq_iff]; norm_num]
          unfold bilerp
          rw [sLem 19 20 (by unfold interior; norm_num),
            sLem 19 (20 + 1) (by unfold interior; norm_num),
            sLem (19 + 1) 20 (by unfold interior; norm_num),
            sLem (19 + 1) (20 + 1) (by unfold interior; norm_num)]
          norm_num [dEx, upd, zeroG]
        · by_cases hD : i = 21 ∧ j = 20
          · obtain ⟨rfl, rfl⟩ := hD
            rw [if_pos (by unfold interior; norm_num)]
            simp only [advectCell]
            rw [show advectX 40 (1/5) (vortX (3/125)) 21 20 = 21 from by
              norm_num [advectX, clampQ, vortX, upd, zeroG]]
            rw [show advectY 40 (1/5) (vortY (3/125)) 21 20 = 12386/625 from by
              norm_num [advectY, clampQ, vortY, upd, zeroG]]
            rw [show ⌊(21 : ℚ)⌋ = 21 from by rw [Int.floor_eq_iff]; norm_num]
            rw [show ⌊(12386/625 : ℚ)⌋ = 19 from by rw [Int.floor_eq_iff]; norm_num]
            unfold bilerp
            rw [sLem 21 19 (by unfold interior; norm_num),
              sLem 21 (19 + 1) (by unfold interior; norm_num),
              sLem (21 + 1) 19 (by unfold interior; norm_num),
              sLem (21 + 1) (19 + 1) (by unfold interior; norm_num)]
            norm_num [dEx, upd, zeroG]
          · by_cases hin : interior 40 i j
            · rw [if_pos hin]
              rw [advectCell_fixed (vortX_other _ i j hA hB)
                (vortY_other _ i j hC hD) hin]
              rw [sLem i j hin]
              unfold dEx upd zeroG
              rw [if_neg hA, if_neg hA]
            · rw [if_neg hin]
              have hne : ¬ (i = 20 ∧ j = 19) := by
                unfold interior at hin
                omega
              unfold dEx upd zeroG
              rw [if_neg hne, if_neg hne]
  rw [hfun]
  exact setB_border_zero (by norm_num)
    (fun i j hb => by
      unfold upd zeroG
      rw [if_neg (by omega)])

/-- One `step()` on the moving-fluid state `stV`, traced in full: the vortex
survives diffusion and both projections, is attenuated to 3/125 by the
velocity advection, and then carries away 114/625 of the unit of density at
(20, 19). -/
lemma stepV_density :
    (Fluid.step stV).density = upd zeroG 20 19 (511/625) := by
  simp only [stV, Fluid.step]
  rw [diffuseV_vort, projectA_vort]
  simp only [vortV_x, vortV_y, zeroVF_x, zeroVF_y]
  rw [advect_vortX, advect_vortY, vortV_pair, projectB_vort]
  simp only [vortV_x, vortV_y]
  exact advect_density_vort

lemma sumGrid_dEx : sumGrid 40 dEx = 1 := by
  unfold sumGrid dEx
  rw [Finset.sum_eq_single ((20 : ℕ), (19 : ℕ))]
  · norm_num [upd, zeroG]
  · rintro ⟨a, b⟩ hmem hne
    unfold upd zeroG
    rw [if_neg]
    rintro ⟨ha, hb⟩
    apply hne
    have ha2 : a = 20 := by exact_mod_cast ha
    have hb2 : b = 19 := by exact_mod_cast hb
    rw [ha2, hb2]
  · intro hnm
    exfalso
    apply hnm
    rw [Finset.mem_product]
    constructor <;> simp

lemma sumGrid_dFin : sumGrid 40 (upd zeroG 20 19 (511/625)) = 511/625 := by
  unfold sumGrid
  rw [Finset.sum_eq_single ((20 : ℕ), (19 : ℕ))]
  · norm_num [upd, zeroG]
  · rintro ⟨a, b⟩ hmem hne
    unfold upd zeroG
    rw [if_neg]
    rintro ⟨ha, hb⟩
    apply hne
    have ha2 : a = 20 := by exact_mod_cast ha
    have hb2 : b = 19 := by exact_mod_cast hb
    rw [ha2, hb2]
  · intro hnm
    exfalso
    apply hnm
    rw [Finset.mem_product]
    constructor <;> simp

/-- C8 counterexample: the claimed conservation bound fails on two reachable
states, one forcing each restriction of the amendment.  First, `st8` (default
construction, then the driver deposits 100 units of density at corner (0, 0);
velocities zero): one `step()` drops the density sum from 100 to 0, because
the corner pass overwrites the corner with the average of its zero border
neighbors — so densities on the border must be excluded.  Second, `stV`
(default construction, then the driver deposits one unit of density at
interior cell (20, 19) and a divergence-free four-cell vortex of strength 1/10
into the velocity field; density zero on every border cell): one `step()`
drops the density sum from 1 to 511/625, a loss of 114/625 = 0.1824 — so
moving fluids must be excluded too.  Both losses are exact-arithmetic and
vastly exceed the claimed bound `1e-6 × cell count = 0.0016`. -/
theorem C8_counterexample :
    (sumGrid 40 st8.density = 100 ∧
     sumGrid 40 ((Fluid.step st8).density) = 0 ∧
     ¬ (|sumGrid 40 st8.density - sumGrid 40 ((Fluid.step st8).density)|
         ≤ (1/1000000) * (40 * 40))) ∧
    (sumGrid 40 stV.density = 1 ∧
     sumGrid 40 ((Fluid.step stV).density) = 511/625 ∧
     ¬ (|sumGrid 40 stV.density - sumGrid 40 ((Fluid.step stV).density)|
         ≤ (1/1000000) * (40 * 40))) := by
  have h2 : sumGrid 40 ((Fluid.step st8).density) = 0 := by
    rw [st8_after]
    unfold sumGrid
    simp [zeroG]
  have hv1 : sumGrid 40 stV.density = 1 := sumGrid_dEx
  have hv2 : sumGrid 40 ((Fluid.step stV).density) = 511/625 := by
    rw [stepV_density]
    exact sumGrid_dFin
  refine ⟨⟨sumGrid_st8_before, h2, ?_⟩, hv1, hv2, ?_⟩
  · rw [sumGrid_st8_before, h2]
    norm_num
  · rw [hv1, hv2]
    rw [show (1 : ℚ) - 511/625 = 114/625 from by norm_num]
    rw [abs_of_pos (by norm_num : (0 : ℚ) < 114/625)]
    norm_num

end FluidSim
